import Mathlib

/-!
Verification of pyGLFW (Python bindings for GLFW): a shallow embedding of the
callback/error bridging protocol, the structure marshalers (gamma ramps,
images), the library locator and the per-handle side tables, with theorems
settling the specification claims C1..C10.

Sources embedded: glfw/__init__.py and glfw/library.py.
-/

namespace PyGLFW

/-! ## Callback bridge (glfw/__init__.py, lines 600-644)

The process-wide slot `_exc_info_from_callback` holds at most one captured
exception raised inside a callback.  Exceptions are modelled as numeric
identifiers. -/

/-- The process-wide pending-callback-failure slot `_exc_info_from_callback`
(`None` initially). -/
structure BridgeState where
  exc_info_from_callback : Option Nat
  deriving DecidableEq, Repr

/-- Outcome of executing a user callback body:
it returns normally, raises an ordinary exception, or raises
`KeyboardInterrupt`/`SystemExit` (which the decorator re-raises). -/
inductive CallbackOutcome where
  | returns : CallbackOutcome
  | raises : Nat → CallbackOutcome
  | exits : Nat → CallbackOutcome
  deriving DecidableEq, Repr

/-- The trampoline `callback_wrapper` produced by
`_callback_exception_decorator` (lines 601-616).  Given the outcome the user
body would have and the current bridge state, it returns the new state,
whether the user body was executed, and the exception (if any) escaping to
the native caller:

* if the slot is non-empty, return immediately without executing user code;
* otherwise run the body; `KeyboardInterrupt`/`SystemExit` escape; any other
  exception is captured into the slot and an innocuous default is returned. -/
def callback_wrapper (body : CallbackOutcome) (s : BridgeState) :
    BridgeState × Bool × Option Nat :=
  if s.exc_info_from_callback ≠ none then
    (s, false, none)
  else
    match body with
    | CallbackOutcome.returns => (s, true, none)
    | CallbackOutcome.exits e => (s, true, some e)
    | CallbackOutcome.raises e => (⟨some e⟩, true, none)

/-- The `errcheck` result hook installed by `_prepare_errcheck`
(lines 619-637) on every `glfw*` native entry point: if the slot is
non-empty it is drained and the captured exception re-raised (the native
result is discarded); otherwise the native result is returned unchanged. -/
def errcheck (s : BridgeState) (result : Nat) : BridgeState × Except Nat Nat :=
  match s.exc_info_from_callback with
  | some e => (⟨none⟩, Except.error e)
  | none => (s, Except.ok result)

/-- Claim C1: while the pending-callback-failure slot is non-empty, every
invocation of every wrapped callback is suppressed (the trampoline returns
immediately, the user body does not execute, the state is unchanged); in
particular, after callback A raises `e1` from an idle state, any callback B
firing before the slot is drained does not execute its body, and the next
errcheck surfaces `e1`, not anything influenced by B. -/
theorem c1_pending_failure_suppresses_callbacks
    (e e1 r : Nat) (bodyA bodyB : CallbackOutcome) :
    (callback_wrapper bodyA ⟨some e⟩ = (⟨some e⟩, false, none))
    ∧ ((callback_wrapper bodyB (callback_wrapper (CallbackOutcome.raises e1) ⟨none⟩).1).2.1
        = false
      ∧ (callback_wrapper bodyB (callback_wrapper (CallbackOutcome.raises e1) ⟨none⟩).1).1
        = ⟨some e1⟩
      ∧ (errcheck (callback_wrapper bodyB (callback_wrapper (CallbackOutcome.raises e1) ⟨none⟩).1).1 r).2
        = Except.error e1) := by
  refine ⟨?_, ?_, ?_, ?_⟩ <;> simp [callback_wrapper, errcheck]

/-- Claim C2: on a native call's result-processing step, a pending captured
error is drained and re-raised (the native result is discarded), a pending
error is surfaced exactly once (the state after draining reports results
unchanged), and with an empty slot the native result is returned unchanged. -/
theorem c2_errcheck_drains_and_reraises (e r r2 : Nat) :
    errcheck ⟨some e⟩ r = (⟨none⟩, Except.error e)
    ∧ errcheck (errcheck ⟨some e⟩ r).1 r2 = (⟨none⟩, Except.ok r2)
    ∧ errcheck ⟨none⟩ r = (⟨none⟩, Except.ok r) := by
  refine ⟨rfl, rfl, rfl⟩

/-! ## Gamma ramp marshaler (glfw/__init__.py, lines 150-209)

Host samples are modelled as rationals (covering both the Python floats of
the normalized form and the Python ints of the raw form); native
`c_ushort` storage is modelled as naturals reduced modulo 2^16. -/

/-- Python `int()`: truncation toward zero. -/
def py_int (q : ℚ) : ℤ :=
  if 0 ≤ q then Int.floor q else Int.ceil q

/-- Storing an integer into a ctypes `c_ushort` slot wraps it modulo 2^16. -/
def c_ushort_of (z : ℤ) : ℕ :=
  (z % 65536).toNat

/-- The native `GLFWgammaramp` structure: three `c_ushort` arrays aliased by
the `red`/`green`/`blue` pointers, plus the explicit `size` field. -/
structure GLFWgammaramp where
  red : List ℕ
  green : List ℕ
  blue : List ℕ
  size : ℕ
  deriving DecidableEq, Repr

/-- `_GLFWgammaramp.wrap` (lines 174-196), with the process-wide
`NORMALIZE_GAMMA_RAMPS` flag passed explicitly: truncate all three channels
to the shortest length, scale by 65535 when normalizing, and store
`int(...)` of each of the first `size` samples into the freshly allocated
`c_ushort` arrays. -/
def gammaramp_wrap (normalize : Bool) (gammaramp : List ℚ × List ℚ × List ℚ) :
    GLFWgammaramp :=
  let red := gammaramp.1
  let green := gammaramp.2.1
  let blue := gammaramp.2.2
  let size := min (min red.length green.length) blue.length
  let red' := if normalize then red.map (fun value => value * 65535) else red
  let green' := if normalize then green.map (fun value => value * 65535) else green
  let blue' := if normalize then blue.map (fun value => value * 65535) else blue
  { red := (List.range size).map (fun i => c_ushort_of (py_int red'[i]!))
    green := (List.range size).map (fun i => c_ushort_of (py_int green'[i]!))
    blue := (List.range size).map (fun i => c_ushort_of (py_int blue'[i]!))
    size := size }

/-- `_GLFWgammaramp.unwrap` (lines 198-209): read `size` samples from each
channel; when normalizing, divide each by 65535.0. -/
def gammaramp_unwrap (normalize : Bool) (g : GLFWgammaramp) :
    List ℚ × List ℚ × List ℚ :=
  let red := (List.range g.size).map (fun i => ((g.red[i]! : ℕ) : ℚ))
  let green := (List.range g.size).map (fun i => ((g.green[i]! : ℕ) : ℚ))
  let blue := (List.range g.size).map (fun i => ((g.blue[i]! : ℕ) : ℚ))
  if normalize then
    (red.map (fun value => value / 65535),
     green.map (fun value => value / 65535),
     blue.map (fun value => value / 65535))
  else
    (red, green, blue)

/-! ### List access helpers -/

theorem list_getElem!_range_map {α : Type} [Inhabited α] (f : ℕ → α) {n i : ℕ}
    (h : i < n) : ((List.range n).map f)[i]! = f i := by
  rw [getElem!_pos _ i (by simpa using h), List.getElem_map]
  congr 1
  exact List.getElem_range i (by simpa using h)

theorem list_getElem!_map {α β : Type} [Inhabited α] [Inhabited β] (f : α → β)
    (l : List α) {i : ℕ} (h : i < l.length) : (l.map f)[i]! = f l[i]! := by
  rw [getElem!_pos (l.map f) i (by simpa using h), getElem!_pos l i h,
    List.getElem_map]

theorem list_range_map_take {α β : Type} [Inhabited α] (f : α → β) (l : List α)
    {n : ℕ} (hn : n ≤ l.length) :
    (List.range n).map (fun i => f l[i]!) = (l.take n).map f := by
  apply List.ext_getElem
  · simp [Nat.min_eq_left hn]
  · intro i h1 h2
    rw [List.getElem_map, List.getElem_map, List.getElem_range, List.getElem_take]
    congr 1
    rw [getElem!_pos]

theorem list_getElem!_mem {α : Type} [Inhabited α] (l : List α) {i : ℕ}
    (h : i < l.length) : l[i]! ∈ l := by
  rw [getElem!_pos l i h]
  exact List.getElem_mem h

/-! ### Per-sample round-trip lemmas -/

/-- One normalized sample: scaling into `[0, 65535]`, truncating with
`int()`, storing as `c_ushort` and dividing by `65535.0` lands within
`1/65535` of the original. -/
theorem gamma_sample_norm (q : ℚ) (h1 : 0 ≤ q) (h2 : q ≤ 1) :
    |((c_ushort_of (py_int (q * 65535)) : ℕ) : ℚ) / 65535 - q| ≤ 1 / 65535 := by
  have hq0 : 0 ≤ q * 65535 := by positivity
  rw [py_int, if_pos hq0, c_ushort_of]
  have hfl0 : 0 ≤ Int.floor (q * 65535) := Int.floor_nonneg.mpr hq0
  have hfl1 : Int.floor (q * 65535) ≤ 65535 := by
    have hle : (q * 65535 : ℚ) ≤ ((65535 : ℤ) : ℚ) := by push_cast; nlinarith
    have := Int.floor_le_floor hle
    simpa [Int.floor_intCast] using this
  rw [Int.emod_eq_of_lt hfl0 (by omega)]
  have hcast : (((Int.floor (q * 65535)).toNat : ℕ) : ℚ)
      = ((Int.floor (q * 65535) : ℤ) : ℚ) := by
    exact_mod_cast congrArg (fun z : ℤ => (z : ℚ)) (Int.toNat_of_nonneg hfl0)
  rw [hcast]
  have ha : ((Int.floor (q * 65535) : ℤ) : ℚ) ≤ q * 65535 := Int.floor_le _
  have hb : q * 65535 - 1 < ((Int.floor (q * 65535) : ℤ) : ℚ) :=
    Int.sub_one_lt_floor _
  rw [abs_le]
  constructor <;> linarith

/-- One raw sample: an integral value in `[0, 65535]` passes through
`int()` and the `c_ushort` store unchanged. -/
theorem gamma_sample_raw (q : ℚ) (hden : q.den = 1) (h0 : 0 ≤ q)
    (h1 : q ≤ 65535) : ((c_ushort_of (py_int q) : ℕ) : ℚ) = q := by
  have hnum : ((q.num : ℤ) : ℚ) = q := by
    exact_mod_cast (Rat.den_eq_one_iff q).mp hden
  have hfl : Int.floor q = q.num := by
    conv_lhs => rw [← hnum]
    exact Int.floor_intCast q.num
  have hn0 : 0 ≤ q.num := Rat.num_nonneg.mpr h0
  have hn1 : q.num ≤ 65535 := by
    have : ((q.num : ℤ) : ℚ) ≤ ((65535 : ℤ) : ℚ) := by rw [hnum]; push_cast; linarith
    exact_mod_cast this
  rw [py_int, if_pos h0, c_ushort_of, hfl, Int.emod_eq_of_lt hn0 (by omega)]
  rw [← hnum]
  exact_mod_cast congrArg (fun z : ℤ => (z : ℚ)) (Int.toNat_of_nonneg hn0)

/-! ### Pointwise computation lemmas for wrap/unwrap -/

theorem gammaramp_wrap_size (normalize : Bool) (red green blue : List ℚ) :
    (gammaramp_wrap normalize (red, green, blue)).size
      = min (min red.length green.length) blue.length := rfl

theorem gammaramp_wrap_getElem! (normalize : Bool) (red green blue : List ℚ)
    {i : ℕ} (hi : i < (gammaramp_wrap normalize (red, green, blue)).size) :
    (gammaramp_wrap normalize (red, green, blue)).red[i]!
        = c_ushort_of (py_int (if normalize then red[i]! * 65535 else red[i]!))
    ∧ (gammaramp_wrap normalize (red, green, blue)).green[i]!
        = c_ushort_of (py_int (if normalize then green[i]! * 65535 else green[i]!))
    ∧ (gammaramp_wrap normalize (red, green, blue)).blue[i]!
        = c_ushort_of (py_int (if normalize then blue[i]! * 65535 else blue[i]!)) := by
  rw [gammaramp_wrap_size] at hi
  have hi' : i < min (min red.length green.length) blue.length := hi
  have hr : i < red.length := by omega
  have hg : i < green.length := by omega
  have hb : i < blue.length := by omega
  cases normalize with
  | false =>
    refine ⟨?_, ?_, ?_⟩
    · show ((List.range (min (min red.length green.length) blue.length)).map
          (fun j => c_ushort_of (py_int red[j]!)))[i]! = c_ushort_of (py_int red[i]!)
      rw [list_getElem!_range_map _ hi']
    · show ((List.range (min (min red.length green.length) blue.length)).map
          (fun j => c_ushort_of (py_int green[j]!)))[i]! = c_ushort_of (py_int green[i]!)
      rw [list_getElem!_range_map _ hi']
    · show ((List.range (min (min red.length green.length) blue.length)).map
          (fun j => c_ushort_of (py_int blue[j]!)))[i]! = c_ushort_of (py_int blue[i]!)
      rw [list_getElem!_range_map _ hi']
  | true =>
    refine ⟨?_, ?_, ?_⟩
    · show ((List.range (min (min red.length green.length) blue.length)).map
          (fun j => c_ushort_of (py_int (red.map (fun value => value * 65535))[j]!)))[i]!
          = c_ushort_of (py_int (red[i]! * 65535))
      rw [list_getElem!_range_map _ hi', list_getElem!_map _ red hr]
    · show ((List.range (min (min red.length green.length) blue.length)).map
          (fun j => c_ushort_of (py_int (green.map (fun value => value * 65535))[j]!)))[i]!
          = c_ushort_of (py_int (green[i]! * 65535))
      rw [list_getElem!_range_map _ hi', list_getElem!_map _ green hg]
    · show ((List.range (min (min red.length green.length) blue.length)).map
          (fun j => c_ushort_of (py_int (blue.map (fun value => value * 65535))[j]!)))[i]!
          = c_ushort_of (py_int (blue[i]! * 65535))
      rw [list_getElem!_range_map _ hi', list_getElem!_map _ blue hb]

theorem gammaramp_unwrap_getElem! (normalize : Bool) (g : GLFWgammaramp)
    {i : ℕ} (hi : i < g.size) :
    (gammaramp_unwrap normalize g).1[i]!
        = (if normalize then ((g.red[i]! : ℕ) : ℚ) / 65535 else ((g.red[i]! : ℕ) : ℚ))
    ∧ (gammaramp_unwrap normalize g).2.1[i]!
        = (if normalize then ((g.green[i]! : ℕ) : ℚ) / 65535 else ((g.green[i]! : ℕ) : ℚ))
    ∧ (gammaramp_unwrap normalize g).2.2[i]!
        = (if normalize then ((g.blue[i]! : ℕ) : ℚ) / 65535 else ((g.blue[i]! : ℕ) : ℚ)) := by
  cases normalize with
  | false =>
    refine ⟨?_, ?_, ?_⟩
    · show ((List.range g.size).map (fun j => ((g.red[j]! : ℕ) : ℚ)))[i]!
          = ((g.red[i]! : ℕ) : ℚ)
      rw [list_getElem!_range_map _ hi]
    · show ((List.range g.size).map (fun j => ((g.green[j]! : ℕ) : ℚ)))[i]!
          = ((g.green[i]! : ℕ) : ℚ)
      rw [list_getElem!_range_map _ hi]
    · show ((List.range g.size).map (fun j => ((g.blue[j]! : ℕ) : ℚ)))[i]!
          = ((g.blue[i]! : ℕ) : ℚ)
      rw [list_getElem!_range_map _ hi]
  | true =>
    refine ⟨?_, ?_, ?_⟩
    · show (((List.range g.size).map (fun j => ((g.red[j]! : ℕ) : ℚ))).map
          (fun value => value / 65535))[i]! = ((g.red[i]! : ℕ) : ℚ) / 65535
      rw [list_getElem!_map _ _ (by simpa using hi), list_getElem!_range_map _ hi]
    · show (((List.range g.size).map (fun j => ((g.green[j]! : ℕ) : ℚ))).map
          (fun value => value / 65535))[i]! = ((g.green[i]! : ℕ) : ℚ) / 65535
      rw [list_getElem!_map _ _ (by simpa using hi), list_getElem!_range_map _ hi]
    · show (((List.range g.size).map (fun j => ((g.blue[j]! : ℕ) : ℚ))).map
          (fun value => value / 65535))[i]! = ((g.blue[i]! : ℕ) : ℚ) / 65535
      rw [list_getElem!_map _ _ (by simpa using hi), list_getElem!_range_map _ hi]

/-- Claim C3: for a gamma ramp of three equal-length channels, with
normalization enabled and every sample in `[0, 1]`, `unwrap (wrap r)`
reproduces each sample within `1/65535`; with normalization disabled and
every sample an integer in `[0, 65535]`, `unwrap (wrap r)` reproduces the
ramp exactly. -/
theorem c3_gammaramp_roundtrip (red green blue : List ℚ)
    (hg : green.length = red.length) (hb : blue.length = red.length) :
    ((∀ q ∈ red, 0 ≤ q ∧ q ≤ 1) → (∀ q ∈ green, 0 ≤ q ∧ q ≤ 1) →
     (∀ q ∈ blue, 0 ≤ q ∧ q ≤ 1) →
      ∀ i < red.length,
        |(gammaramp_unwrap true (gammaramp_wrap true (red, green, blue))).1[i]!
            - red[i]!| ≤ 1 / 65535
        ∧ |(gammaramp_unwrap true (gammaramp_wrap true (red, green, blue))).2.1[i]!
            - green[i]!| ≤ 1 / 65535
        ∧ |(gammaramp_unwrap true (gammaramp_wrap true (red, green, blue))).2.2[i]!
            - blue[i]!| ≤ 1 / 65535)
    ∧ ((∀ q ∈ red, q.den = 1 ∧ 0 ≤ q ∧ q ≤ 65535) →
       (∀ q ∈ green, q.den = 1 ∧ 0 ≤ q ∧ q ≤ 65535) →
       (∀ q ∈ blue, q.den = 1 ∧ 0 ≤ q ∧ q ≤ 65535) →
      gammaramp_unwrap false (gammaramp_wrap false (red, green, blue))
        = (red, green, blue)) := by
  have hsize : (gammaramp_wrap true (red, green, blue)).size = red.length := by
    rw [gammaramp_wrap_size]; omega
  have hsizef : (gammaramp_wrap false (red, green, blue)).size = red.length := by
    rw [gammaramp_wrap_size]; omega
  constructor
  · intro hnr hng hnb i hi
    have hi' : i < (gammaramp_wrap true (red, green, blue)).size := by omega
    obtain ⟨hur, hug, hub⟩ :=
      gammaramp_unwrap_getElem! true (gammaramp_wrap true (red, green, blue)) hi'
    obtain ⟨hwr, hwg, hwb⟩ := gammaramp_wrap_getElem! true red green blue hi'
    rw [if_pos rfl] at hur hug hub
    rw [if_pos rfl] at hwr hwg hwb
    refine ⟨?_, ?_, ?_⟩
    · rw [hur, hwr]
      obtain ⟨h1, h2⟩ := hnr red[i]! (list_getElem!_mem red hi)
      exact gamma_sample_norm _ h1 h2
    · rw [hug, hwg]
      obtain ⟨h1, h2⟩ := hng green[i]! (list_getElem!_mem green (by omega))
      exact gamma_sample_norm _ h1 h2
    · rw [hub, hwb]
      obtain ⟨h1, h2⟩ := hnb blue[i]! (list_getElem!_mem blue (by omega))
      exact gamma_sample_norm _ h1 h2
  · intro hrr hrg hrb
    have hlen1 : (gammaramp_unwrap false (gammaramp_wrap false (red, green, blue))).1.length
        = red.length := by
      simp [gammaramp_unwrap, hsizef]
    have hlen2 : (gammaramp_unwrap false (gammaramp_wrap false (red, green, blue))).2.1.length
        = green.length := by
      simp [gammaramp_unwrap, hsizef]; omega
    have hlen3 : (gammaramp_unwrap false (gammaramp_wrap false (red, green, blue))).2.2.length
        = blue.length := by
      simp [gammaramp_unwrap, hsizef]; omega
    have key : ∀ (i : ℕ), i < red.length →
        (gammaramp_unwrap false (gammaramp_wrap false (red, green, blue))).1[i]! = red[i]!
        ∧ (gammaramp_unwrap false (gammaramp_wrap false (red, green, blue))).2.1[i]! = green[i]!
        ∧ (gammaramp_unwrap false (gammaramp_wrap false (red, green, blue))).2.2[i]! = blue[i]! := by
      intro i hi
      have hi' : i < (gammaramp_wrap false (red, green, blue)).size := by omega
      obtain ⟨hur, hug, hub⟩ :=
        gammaramp_unwrap_getElem! false (gammaramp_wrap false (red, green, blue)) hi'
      obtain ⟨hwr, hwg, hwb⟩ := gammaramp_wrap_getElem! false red green blue hi'
      rw [if_neg Bool.false_ne_true] at hur hug hub
      rw [if_neg Bool.false_ne_true] at hwr hwg hwb
      refine ⟨?_, ?_, ?_⟩
      · rw [hur, hwr]
        obtain ⟨h1, h2, h3⟩ := hrr red[i]! (list_getElem!_mem red hi)
        exact gamma_sample_raw _ h1 h2 h3
      · rw [hug, hwg]
        obtain ⟨h1, h2, h3⟩ := hrg green[i]! (list_getElem!_mem green (by omega))
        exact gamma_sample_raw _ h1 h2 h3
      · rw [hub, hwb]
        obtain ⟨h1, h2, h3⟩ := hrb blue[i]! (list_getElem!_mem blue (by omega))
        exact gamma_sample_raw _ h1 h2 h3
    have e1 : (gammaramp_unwrap false (gammaramp_wrap false (red, green, blue))).1 = red := by
      apply List.ext_getElem! hlen1
      intro n
      by_cases hn : n < red.length
      · exact (key n hn).1
      · rw [getElem!_neg _ n (by omega), getElem!_neg _ n (by omega)]
    have e2 : (gammaramp_unwrap false (gammaramp_wrap false (red, green, blue))).2.1 = green := by
      apply List.ext_getElem! hlen2
      intro n
      by_cases hn : n < red.length
      · exact (key n hn).2.1
      · rw [getElem!_neg _ n (by omega), getElem!_neg _ n (by omega)]
    have e3 : (gammaramp_unwrap false (gammaramp_wrap false (red, green, blue))).2.2 = blue := by
      apply List.ext_getElem! hlen3
      intro n
      by_cases hn : n < red.length
      · exact (key n hn).2.2
      · rw [getElem!_neg _ n (by omega), getElem!_neg _ n (by omega)]
    calc gammaramp_unwrap false (gammaramp_wrap false (red, green, blue))
        = ((gammaramp_unwrap false (gammaramp_wrap false (red, green, blue))).1,
           (gammaramp_unwrap false (gammaramp_wrap false (red, green, blue))).2.1,
           (gammaramp_unwrap false (gammaramp_wrap false (red, green, blue))).2.2) := rfl
      _ = (red, green, blue) := by rw [e1, e2, e3]

/-- Witness for C3: concrete ramps, normalized and raw. -/
theorem c3_gammaramp_roundtrip_witness :
    |(gammaramp_unwrap true (gammaramp_wrap true ([1/2, 0, 1], [1/3, 1, 0], [2/3, 1/4, 1]))).1[0]!
        - ([1/2, 0, 1] : List ℚ)[0]!| ≤ 1 / 65535
    ∧ gammaramp_unwrap false (gammaramp_wrap false ([3, 65535], [0, 1], [2, 7]))
        = ([3, 65535], [0, 1], [2, 7]) := by
  constructor
  · have h := c3_gammaramp_roundtrip [1/2, 0, 1] [1/3, 1, 0] [2/3, 1/4, 1] rfl rfl
    exact (h.1 (by norm_num) (by norm_num) (by norm_num) 0 (by norm_num)).1
  · have h := c3_gammaramp_roundtrip [3, 65535] [0, 1] [2, 7] rfl rfl
    exact h.2 (by decide) (by decide) (by decide)

/-- Claim C4: `wrap` sizes the native ramp to the minimum of the three
channel lengths and stores exactly the first `size` converted samples of
each channel, discarding trailing samples of longer channels; lengths
`(5, 7, 3)` yield size `3`. -/
theorem c4_gammaramp_wrap_truncates (normalize : Bool) (red green blue : List ℚ) :
    (gammaramp_wrap normalize (red, green, blue)).size
        = min (min red.length green.length) blue.length
    ∧ (gammaramp_wrap normalize (red, green, blue)).red
        = ((if normalize then red.map (fun value => value * 65535) else red).take
            (gammaramp_wrap normalize (red, green, blue)).size).map
          (fun q => c_ushort_of (py_int q))
    ∧ (gammaramp_wrap normalize (red, green, blue)).green
        = ((if normalize then green.map (fun value => value * 65535) else green).take
            (gammaramp_wrap normalize (red, green, blue)).size).map
          (fun q => c_ushort_of (py_int q))
    ∧ (gammaramp_wrap normalize (red, green, blue)).blue
        = ((if normalize then blue.map (fun value => value * 65535) else blue).take
            (gammaramp_wrap normalize (red, green, blue)).size).map
          (fun q => c_ushort_of (py_int q))
    ∧ (red.length = 5 → green.length = 7 → blue.length = 3 →
        (gammaramp_wrap normalize (red, green, blue)).size = 3) := by
  rw [gammaramp_wrap_size]
  have hlr : min (min red.length green.length) blue.length ≤ red.length := by omega
  have hlg : min (min red.length green.length) blue.length ≤ green.length := by omega
  have hlb : min (min red.length green.length) blue.length ≤ blue.length := by omega
  refine ⟨rfl, ?_, ?_, ?_, fun h1 h2 h3 => by omega⟩
  · cases normalize with
    | false =>
      show (List.range (min (min red.length green.length) blue.length)).map
          (fun j => c_ushort_of (py_int red[j]!)) = _
      rw [if_neg Bool.false_ne_true]
      exact list_range_map_take (fun q => c_ushort_of (py_int q)) red hlr
    | true =>
      show (List.range (min (min red.length green.length) blue.length)).map
          (fun j => c_ushort_of (py_int (red.map (fun value => value * 65535))[j]!)) = _
      rw [if_pos rfl]
      exact list_range_map_take (fun q => c_ushort_of (py_int q)) _ (by simp)
  · cases normalize with
    | false =>
      show (List.range (min (min red.length green.length) blue.length)).map
          (fun j => c_ushort_of (py_int green[j]!)) = _
      rw [if_neg Bool.false_ne_true]
      exact list_range_map_take (fun q => c_ushort_of (py_int q)) green hlg
    | true =>
      show (List.range (min (min red.length green.length) blue.length)).map
          (fun j => c_ushort_of (py_int (green.map (fun value => value * 65535))[j]!)) = _
      rw [if_pos rfl]
      exact list_range_map_take (fun q => c_ushort_of (py_int q)) _ (by simp)
  · cases normalize with
    | false =>
      show (List.range (min (min red.length green.length) blue.length)).map
          (fun j => c_ushort_of (py_int blue[j]!)) = _
      rw [if_neg Bool.false_ne_true]
      exact list_range_map_take (fun q => c_ushort_of (py_int q)) blue hlb
    | true =>
      show (List.range (min (min red.length green.length) blue.length)).map
          (fun j => c_ushort_of (py_int (blue.map (fun value => value * 65535))[j]!)) = _
      rw [if_pos rfl]
      exact list_range_map_take (fun q => c_ushort_of (py_int q)) _ (by simp)

/-- Witness for C4: concrete channels of lengths `(5, 7, 3)` give size `3`. -/
theorem c4_gammaramp_wrap_truncates_witness :
    (gammaramp_wrap false ([0, 1, 2, 3, 4], [0, 1, 2, 3, 4, 5, 6], [0, 1, 2])).size = 3 := by
  exact (c4_gammaramp_wrap_truncates false [0, 1, 2, 3, 4] [0, 1, 2, 3, 4, 5, 6]
    [0, 1, 2]).2.2.2.2 rfl rfl rfl

/-! ## Image marshaler (glfw/__init__.py, lines 220-268)

`_GLFWimage.wrap` accepts either a PIL/pillow-like object (detected by its
`size` and `convert` attributes) or a plain `(width, height, pixels)`
sequence.  The native pixel storage is modelled as the flattened RGBA byte
buffer. -/

/-- A PIL/pillow-like bitmap: its `size` pair and the row-major RGBA byte
quadruples produced by `image.convert('RGBA').getdata()` (one 4-element list
per pixel; PIL guarantees `width * height` of them). -/
structure PILimage where
  width : ℕ
  height : ℕ
  getdata : List (List ℕ)

/-- The native `GLFWimage` structure; `pixels` is the flattened
`c_ubyte` buffer the `pixels` pointer aliases. -/
structure GLFWimage where
  width : ℕ
  height : ℕ
  pixels : List ℕ
  deriving DecidableEq, Repr

/-- `_GLFWimage.wrap`, PIL branch (lines 244-251): `pixels_array` is a
`(c_ubyte * 4) * (width * height)` array; pixel `i` of `getdata()` is
written to cell `i`. -/
def image_wrap_pil (image : PILimage) : GLFWimage :=
  { width := image.width
    height := image.height
    pixels := (List.range (image.width * image.height)).flatMap
      (fun i => image.getdata[i]!) }

/-- `_GLFWimage.wrap`, nested-sequence branch (lines 252-259): `pixels_array`
is a `c_ubyte * 4 * width * height` array filled from
`pixels[i][j][k]` for `i < height`, `j < width`, `k < 4`. -/
def image_wrap_grid (image : ℕ × ℕ × List (List (List ℕ))) : GLFWimage :=
  let width := image.1
  let height := image.2.1
  let pixels := image.2.2
  { width := width
    height := height
    pixels := (List.range height).flatMap (fun i =>
      (List.range width).flatMap (fun j =>
        (List.range 4).map (fun k => ((pixels[i]!)[j]!)[k]!))) }

/-- Row-major reindexing: a flat pass over `h * w` cells visits the same
cells as the nested row/column passes. -/
theorem range_mul_flatMap {α : Type} (h w : ℕ) (g : ℕ → ℕ → List α) :
    (List.range (h * w)).flatMap (fun i => g (i / w) (i % w))
      = (List.range h).flatMap (fun i => (List.range w).flatMap (fun j => g i j)) := by
  rcases Nat.eq_zero_or_pos w with hw | hw
  · subst hw
    simp
  · induction h with
    | zero => simp
    | succ n ih =>
      have hsplit : (n + 1) * w = n * w + w := by ring
      rw [hsplit, List.range_add, List.flatMap_append, ih, List.flatMap_map,
        List.range_succ, List.flatMap_append]
      congr 1
      have hfun : ∀ x ∈ List.range w,
          g ((n * w + x) / w) ((n * w + x) % w) = g n x := by
        intro x hx
        have hxw : x < w := List.mem_range.mp hx
        have hdiv : (n * w + x) / w = n := by
          rw [Nat.mul_comm n w, Nat.mul_add_div hw]
          rw [Nat.div_eq_of_lt hxw]
          rfl
        have hmod : (n * w + x) % w = x := by
          rw [Nat.mul_comm n w, Nat.mul_add_mod]
          exact Nat.mod_eq_of_lt hxw
        rw [hdiv, hmod]
      rw [List.flatMap_congr hfun]
      simp

/-- A flatMap whose pieces all have length `k` has length `l.length * k`. -/
theorem flatMap_length_const {α : Type} (l : List ℕ) (f : ℕ → List α) (k : ℕ)
    (h : ∀ x ∈ l, (f x).length = k) : (l.flatMap f).length = l.length * k := by
  induction l with
  | nil => simp
  | cons a t ih =>
    rw [List.flatMap_cons, List.length_append, h a (by simp),
      ih (fun x hx => h x (by simp [hx])), List.length_cons]
    ring

/-- Claim C10: for a `width × height` image, the PIL branch and the plain
nested-sequence branch of `Image.wrap` produce the identical flattened RGBA
byte buffer of length `width * height * 4`, whenever the PIL object's
row-major pixel quadruples carry the same pixel data as the grid. -/
theorem c10_image_wrap_equivalence (image : PILimage) (width height : ℕ)
    (pixels : List (List (List ℕ)))
    (hw : image.width = width) (hh : image.height = height)
    (hpix : ∀ i < width * height,
      image.getdata[i]!
        = (List.range 4).map (fun k => ((pixels[i / width]!)[i % width]!)[k]!)) :
    (image_wrap_pil image).pixels = (image_wrap_grid (width, height, pixels)).pixels
    ∧ (image_wrap_pil image).pixels.length = width * height * 4 := by
  have hstep : (image_wrap_pil image).pixels
      = (List.range (width * height)).flatMap
        (fun i => (List.range 4).map (fun k => ((pixels[i / width]!)[i % width]!)[k]!)) := by
    show (List.range (image.width * image.height)).flatMap
        (fun i => image.getdata[i]!) = _
    rw [hw, hh]
    exact List.flatMap_congr (fun i hi => hpix i (List.mem_range.mp hi))
  constructor
  · rw [hstep]
    show _ = (List.range height).flatMap (fun i =>
      (List.range width).flatMap (fun j =>
        (List.range 4).map (fun k => ((pixels[i]!)[j]!)[k]!)))
    rw [Nat.mul_comm width height]
    exact range_mul_flatMap height width
      (fun a b => (List.range 4).map (fun k => ((pixels[a]!)[b]!)[k]!))
  · rw [hstep, flatMap_length_const _ _ 4 (fun x _ => by simp)]
    simp

/-- Witness for C10: a concrete `2 × 2` RGBA image supplied both ways. -/
theorem c10_image_wrap_equivalence_witness :
    (image_wrap_pil ⟨2, 2, [[1, 2, 3, 4], [5, 6, 7, 8], [9, 10, 11, 12], [13, 14, 15, 16]]⟩).pixels
      = (image_wrap_grid (2, 2, [[[1, 2, 3, 4], [5, 6, 7, 8]], [[9, 10, 11, 12], [13, 14, 15, 16]]])).pixels
    ∧ (image_wrap_pil ⟨2, 2, [[1, 2, 3, 4], [5, 6, 7, 8], [9, 10, 11, 12], [13, 14, 15, 16]]⟩).pixels.length
      = 2 * 2 * 4 := by
  exact c10_image_wrap_equivalence
    ⟨2, 2, [[1, 2, 3, 4], [5, 6, 7, 8], [9, 10, 11, 12], [13, 14, 15, 16]]⟩ 2 2
    [[[1, 2, 3, 4], [5, 6, 7, 8]], [[9, 10, 11, 12], [13, 14, 15, 16]]]
    rfl rfl (by decide)

/-! ## Library locator (glfw/library.py, lines 51-68)

`_load_library` filters the discovered candidates by their probed version
(`version_check_callback`, run in an isolated subprocess) and loads the
last element of the list of `(version, filename)` pairs sorted in Python's
ascending tuple order (version lexicographically, then filename). -/

/-- Python's `<` on 3-tuples of ints: lexicographic. -/
def verLt (a b : ℕ × ℕ × ℕ) : Prop :=
  a.1 < b.1 ∨ (a.1 = b.1 ∧ (a.2.1 < b.2.1 ∨ (a.2.1 = b.2.1 ∧ a.2.2 < b.2.2)))

/-- Python's `>=` comparison `version >= (3, 0, 0)`, as `≤` on 3-tuples. -/
def verLe (a b : ℕ × ℕ × ℕ) : Prop :=
  verLt a b ∨ a = b

instance verLt.decidableRel : DecidableRel verLt := fun a b =>
  decidable_of_iff
    (a.1 < b.1 ∨ (a.1 = b.1 ∧ (a.2.1 < b.2.1 ∨ (a.2.1 = b.2.1 ∧ a.2.2 < b.2.2))))
    Iff.rfl

instance verLe.decidableRel : DecidableRel verLe := fun a b =>
  decidable_of_iff (verLt a b ∨ a = b) Iff.rfl

/-- Python's `<=` on the `(version, filename)` pairs that
`library_versions.sort()` compares. -/
def libLe (a b : (ℕ × ℕ × ℕ) × String) : Prop :=
  verLt a.1 b.1 ∨ (a.1 = b.1 ∧ a.2 ≤ b.2)

instance libLe.decidableRel : DecidableRel libLe := fun a b =>
  decidable_of_iff (verLt a.1 b.1 ∨ (a.1 = b.1 ∧ a.2 ≤ b.2)) Iff.rfl

theorem verLt_trans {a b c : ℕ × ℕ × ℕ} (h1 : verLt a b) (h2 : verLt b c) :
    verLt a c := by
  unfold verLt at h1 h2 ⊢
  obtain ⟨x1, x2, x3⟩ := a
  obtain ⟨y1, y2, y3⟩ := b
  obtain ⟨z1, z2, z3⟩ := c
  simp only [Prod.mk.injEq] at h1 h2 ⊢
  omega

theorem verLt_total (a b : ℕ × ℕ × ℕ) : verLt a b ∨ verLt b a ∨ a = b := by
  unfold verLt
  obtain ⟨x1, x2, x3⟩ := a
  obtain ⟨y1, y2, y3⟩ := b
  simp only [Prod.mk.injEq]
  omega

instance libLe.isTrans : IsTrans ((ℕ × ℕ × ℕ) × String) libLe := by
  constructor
  intro a b c hab hbc
  rcases hab with h1 | ⟨e1, s1⟩
  · rcases hbc with h2 | ⟨e2, s2⟩
    · exact Or.inl (verLt_trans h1 h2)
    · exact Or.inl (e2 ▸ h1)
  · rcases hbc with h2 | ⟨e2, s2⟩
    · exact Or.inl (e1 ▸ h2)
    · exact Or.inr ⟨e1.trans e2, le_trans s1 s2⟩

instance libLe.isTotal : IsTotal ((ℕ × ℕ × ℕ) × String) libLe := by
  constructor
  intro a b
  rcases verLt_total a.1 b.1 with h | h | h
  · exact Or.inl (Or.inl h)
  · exact Or.inr (Or.inl h)
  · rcases le_total a.2 b.2 with hs | hs
    · exact Or.inl (Or.inr ⟨h, hs⟩)
    · exact Or.inr (Or.inr ⟨h.symm, hs⟩)

/-- The body of the candidate loop in `_load_library`:
`version = version_check_callback(filename)`, and the pair
`(version, filename)` is kept when
`version is not None and version >= (3, 0, 0)`. -/
def candidate_filter (version_check_callback : String → Option (ℕ × ℕ × ℕ))
    (filename : String) : Option ((ℕ × ℕ × ℕ) × String) :=
  match version_check_callback filename with
  | some version =>
      if verLe (3, 0, 0) version then some (version, filename) else none
  | none => none

/-- `_load_library` (glfw/library.py, lines 51-68): iterate over
`set(candidates)` (modelled by `dedup`; the later sort makes the set's
iteration order irrelevant), keep the `(version, filename)` pairs whose
probed version is present and `>= (3, 0, 0)`, return `None` when nothing
qualifies, else sort ascending and load (return) the last filename. -/
def _load_library (candidates : List String)
    (version_check_callback : String → Option (ℕ × ℕ × ℕ)) : Option String :=
  let library_versions :=
    candidates.dedup.filterMap (candidate_filter version_check_callback)
  if library_versions.isEmpty then none
  else ((library_versions.insertionSort libLe).getLast?).map Prod.snd

/-- In a `Pairwise r` list, every element is the last one or related to it. -/
theorem pairwise_rel_getLast {α : Type} {r : α → α → Prop} :
    ∀ (l : List α) (hne : l ≠ []), l.Pairwise r →
      ∀ x ∈ l, x = l.getLast hne ∨ r x (l.getLast hne) := by
  intro l
  induction l with
  | nil => intro hne; exact absurd rfl hne
  | cons a t ih =>
    intro hne hp x hx
    cases t with
    | nil =>
      rcases List.mem_singleton.mp hx with rfl
      exact Or.inl rfl
    | cons b t2 =>
      have hne2 : b :: t2 ≠ [] := by simp
      rw [List.getLast_cons hne2]
      rcases List.pairwise_cons.mp hp with ⟨hrel, hp2⟩
      rcases List.mem_cons.mp hx with rfl | hx2
      · exact Or.inr (hrel _ (List.getLast_mem hne2))
      · exact ih hne2 hp2 x hx2

theorem candidate_filter_eq_some {version_check_callback : String → Option (ℕ × ℕ × ℕ)}
    {filename : String} {p : (ℕ × ℕ × ℕ) × String} :
    candidate_filter version_check_callback filename = some p ↔
      version_check_callback filename = some p.1 ∧ verLe (3, 0, 0) p.1 ∧ p.2 = filename := by
  unfold candidate_filter
  cases hv : version_check_callback filename with
  | none => simp
  | some w =>
    show (if verLe (3, 0, 0) w then some (w, filename) else none) = some p ↔ _
    by_cases hq : verLe (3, 0, 0) w
    · rw [if_pos hq]
      constructor
      · intro h
        obtain rfl := Option.some.inj h
        exact ⟨rfl, hq, rfl⟩
      · rintro ⟨h1, h2, h3⟩
        obtain rfl := Option.some.inj h1
        obtain ⟨p1, p2⟩ := p
        simp only at h3
        rw [h3]
    · rw [if_neg hq]
      constructor
      · intro h
        exact absurd h (by simp)
      · rintro ⟨h1, h2, h3⟩
        obtain rfl := Option.some.inj h1
        exact absurd h2 hq

/-- If no candidate's probed version qualifies, the locator returns `None`. -/
theorem load_library_none (candidates : List String)
    (version_check_callback : String → Option (ℕ × ℕ × ℕ))
    (h : ∀ f ∈ candidates, ∀ w, version_check_callback f = some w →
      ¬ verLe (3, 0, 0) w) :
    _load_library candidates version_check_callback = none := by
  have hL : candidates.dedup.filterMap (candidate_filter version_check_callback) = [] := by
    apply List.filterMap_eq_nil_iff.mpr
    intro a ha
    cases hv : version_check_callback a with
    | none => unfold candidate_filter; rw [hv]
    | some w =>
      unfold candidate_filter
      rw [hv]
      show (if verLe (3, 0, 0) w then some (w, a) else none) = none
      rw [if_neg (h a (List.mem_dedup.mp ha) w hv)]
  show (if (candidates.dedup.filterMap (candidate_filter version_check_callback)).isEmpty
      then none
      else (((candidates.dedup.filterMap
        (candidate_filter version_check_callback)).insertionSort libLe).getLast?).map
        Prod.snd) = none
  rw [hL]
  rfl

/-- When the locator returns a filename, that candidate qualifies and its
version is maximal among all qualifying candidates. -/
theorem load_library_some (candidates : List String)
    (version_check_callback : String → Option (ℕ × ℕ × ℕ)) (f : String)
    (h : _load_library candidates version_check_callback = some f) :
    f ∈ candidates
    ∧ ∃ w, version_check_callback f = some w ∧ verLe (3, 0, 0) w
      ∧ ∀ g ∈ candidates, ∀ u, version_check_callback g = some u →
          verLe (3, 0, 0) u → verLe u w := by
  have h' : (if (candidates.dedup.filterMap (candidate_filter version_check_callback)).isEmpty
      then none
      else (((candidates.dedup.filterMap
        (candidate_filter version_check_callback)).insertionSort libLe).getLast?).map
        Prod.snd) = some f := h
  by_cases hemp : (candidates.dedup.filterMap (candidate_filter version_check_callback)).isEmpty
  · rw [if_pos hemp] at h'
    exact absurd h' (by simp)
  · rw [if_neg hemp] at h'
    obtain ⟨best, hlast, hsnd⟩ := Option.map_eq_some'.mp h'
    have hSne : (candidates.dedup.filterMap
        (candidate_filter version_check_callback)).insertionSort libLe ≠ [] := by
      intro h0
      rw [h0] at hlast
      exact absurd hlast (by simp)
    have hbest : best = ((candidates.dedup.filterMap
        (candidate_filter version_check_callback)).insertionSort libLe).getLast hSne := by
      rw [List.getLast?_eq_getLast _ hSne] at hlast
      exact (Option.some.inj hlast).symm
    have hmemS : best ∈ (candidates.dedup.filterMap
        (candidate_filter version_check_callback)).insertionSort libLe := by
      rw [hbest]
      exact List.getLast_mem hSne
    have hmemL : best ∈ candidates.dedup.filterMap (candidate_filter version_check_callback) :=
      (List.perm_insertionSort libLe _).mem_iff.mp hmemS
    obtain ⟨a, ha, hFa⟩ := List.mem_filterMap.mp hmemL
    obtain ⟨hva, hqa, hfa⟩ := candidate_filter_eq_some.mp hFa
    have hf_eq : f = a := by rw [← hsnd, hfa]
    refine ⟨?_, best.1, ?_, hqa, ?_⟩
    · rw [hf_eq]
      exact List.mem_dedup.mp ha
    · rw [hf_eq]
      exact hva
    · intro g hg u hu hqu
      have hFg : candidate_filter version_check_callback g = some (u, g) :=
        candidate_filter_eq_some.mpr ⟨hu, hqu, rfl⟩
      have hmemLg : (u, g) ∈ candidates.dedup.filterMap
          (candidate_filter version_check_callback) :=
        List.mem_filterMap.mpr ⟨g, List.mem_dedup.mpr hg, hFg⟩
      have hmemSg : (u, g) ∈ (candidates.dedup.filterMap
          (candidate_filter version_check_callback)).insertionSort libLe :=
        (List.perm_insertionSort libLe _).mem_iff.mpr hmemLg
      have hsorted : ((candidates.dedup.filterMap
          (candidate_filter version_check_callback)).insertionSort libLe).Pairwise libLe :=
        List.sorted_insertionSort libLe _
      rcases pairwise_rel_getLast _ hSne hsorted (u, g) hmemSg with heq | hrel
      · right
        rw [← hbest] at heq
        exact congrArg Prod.fst heq
      · rw [← hbest] at hrel
        rcases hrel with hlt | ⟨heq1, _⟩
        · exact Or.inl hlt
        · exact Or.inr heq1

/-- The probe results of the spec's locator scenario: `libfoo.so` reports
version `v`, `libfoo.so.3.1` reports `(3, 1, 0)`, `libfoo.so.2.9` reports
`(2, 9, 0)`. -/
def scenario_version_check (v : ℕ × ℕ × ℕ) : String → Option (ℕ × ℕ × ℕ) :=
  fun filename =>
    if filename = "libfoo.so" then some v
    else if filename = "libfoo.so.3.1" then some (3, 1, 0)
    else if filename = "libfoo.so.2.9" then some (2, 9, 0)
    else none

theorem load_library_scenario (v : ℕ × ℕ × ℕ) (hv1 : verLe (3, 0, 0) v)
    (hv2 : verLe v (3, 1, 0)) :
    _load_library ["libfoo.so", "libfoo.so.3.1", "libfoo.so.2.9"]
      (scenario_version_check v) = some "libfoo.so.3.1" := by
  have e1 : candidate_filter (scenario_version_check v) "libfoo.so"
      = some (v, "libfoo.so") := by
    unfold candidate_filter scenario_version_check
    rw [if_pos rfl]
    show (if verLe (3, 0, 0) v then some (v, "libfoo.so") else none) = _
    rw [if_pos hv1]
  have e2 : candidate_filter (scenario_version_check v) "libfoo.so.3.1"
      = some ((3, 1, 0), "libfoo.so.3.1") := by
    unfold candidate_filter scenario_version_check
    rw [if_neg (by decide), if_pos rfl]
    show (if verLe (3, 0, 0) (3, 1, 0) then some ((3, 1, 0), "libfoo.so.3.1") else none) = _
    rw [if_pos (by decide)]
  have e3 : candidate_filter (scenario_version_check v) "libfoo.so.2.9" = none := by
    unfold candidate_filter scenario_version_check
    rw [if_neg (by decide), if_neg (by decide), if_pos rfl]
    show (if verLe (3, 0, 0) (2, 9, 0) then some ((2, 9, 0), "libfoo.so.2.9") else none) = _
    rw [if_neg (by decide)]
  have hdedup : (["libfoo.so", "libfoo.so.3.1", "libfoo.so.2.9"] : List String).dedup
      = ["libfoo.so", "libfoo.so.3.1", "libfoo.so.2.9"] := by decide
  have hL : (["libfoo.so", "libfoo.so.3.1", "libfoo.so.2.9"] : List String).dedup.filterMap
      (candidate_filter (scenario_version_check v))
      = [(v, "libfoo.so"), ((3, 1, 0), "libfoo.so.3.1")] := by
    rw [hdedup, List.filterMap_cons_some e1, List.filterMap_cons_some e2,
      List.filterMap_cons_none e3, List.filterMap_nil]
  have hle : libLe (v, "libfoo.so") ((3, 1, 0), "libfoo.so.3.1") := by
    rcases hv2 with hlt | heq
    · exact Or.inl hlt
    · refine Or.inr ⟨heq, ?_⟩
      show ("libfoo.so" : String) ≤ "libfoo.so.3.1"
      rw [String.le_iff_toList_le]
      decide
  have hsort : ([(v, "libfoo.so"), ((3, 1, 0), "libfoo.so.3.1")] :
        List ((ℕ × ℕ × ℕ) × String)).insertionSort libLe
      = [(v, "libfoo.so"), ((3, 1, 0), "libfoo.so.3.1")] := by
    show List.orderedInsert libLe (v, "libfoo.so") [((3, 1, 0), "libfoo.so.3.1")] = _
    unfold List.orderedInsert
    rw [if_pos hle]
  show (if ((["libfoo.so", "libfoo.so.3.1", "libfoo.so.2.9"] :
        List String).dedup.filterMap (candidate_filter (scenario_version_check v))).isEmpty
      then none
      else (((["libfoo.so", "libfoo.so.3.1", "libfoo.so.2.9"] :
        List String).dedup.filterMap
        (candidate_filter (scenario_version_check v))).insertionSort libLe).getLast?.map
        Prod.snd) = some "libfoo.so.3.1"
  rw [hL]
  show ((([(v, "libfoo.so"), ((3, 1, 0), "libfoo.so.3.1")] :
      List ((ℕ × ℕ × ℕ) × String)).insertionSort libLe).getLast?).map Prod.snd
      = some "libfoo.so.3.1"
  rw [hsort]
  rfl

/-- Claim C6: the locator discards every candidate whose probed version is
absent or below `(3, 0, 0)` (returning no library if none qualifies), loads
a qualifying candidate of maximal version otherwise, and in the spec's
scenario — `libfoo.so` reporting some qualifying version at most `3.1.0`
(it is a lower or equal alias of the versioned file, so `3.1` is the highest
qualifying version), `libfoo.so.3.1` reporting `(3, 1, 0)` and
`libfoo.so.2.9` reporting `(2, 9, 0)` — selects `libfoo.so.3.1`, and never
the `2.9` file. -/
theorem c6_load_library_selects_highest (candidates : List String)
    (version_check_callback : String → Option (ℕ × ℕ × ℕ)) (v : ℕ × ℕ × ℕ) :
    ((∀ f ∈ candidates, ∀ w, version_check_callback f = some w →
        ¬ verLe (3, 0, 0) w) →
      _load_library candidates version_check_callback = none)
    ∧ (∀ f, _load_library candidates version_check_callback = some f →
        f ∈ candidates
        ∧ ∃ w, version_check_callback f = some w ∧ verLe (3, 0, 0) w
          ∧ ∀ g ∈ candidates, ∀ u, version_check_callback g = some u →
              verLe (3, 0, 0) u → verLe u w)
    ∧ (verLe (3, 0, 0) v → verLe v (3, 1, 0) →
        _load_library ["libfoo.so", "libfoo.so.3.1", "libfoo.so.2.9"]
          (scenario_version_check v) = some "libfoo.so.3.1")
    ∧ (version_check_callback "libfoo.so.2.9" = some (2, 9, 0) →
        _load_library ["libfoo.so", "libfoo.so.3.1", "libfoo.so.2.9"]
          version_check_callback ≠ some "libfoo.so.2.9") := by
  refine ⟨load_library_none candidates version_check_callback,
    fun f hf => load_library_some candidates version_check_callback f hf,
    fun h1 h2 => load_library_scenario v h1 h2, ?_⟩
  intro h29 hres
  obtain ⟨hmem, w, hw, hq, _⟩ :=
    load_library_some _ version_check_callback _ hres
  rw [h29] at hw
  obtain rfl := Option.some.inj hw
  exact absurd hq (by decide)

/-- Witness for C6: the scenario with `libfoo.so` probing as `(3, 0, 5)`. -/
theorem c6_load_library_selects_highest_witness :
    _load_library ["libfoo.so", "libfoo.so.3.1", "libfoo.so.2.9"]
      (scenario_version_check (3, 0, 5)) = some "libfoo.so.3.1" :=
  (c6_load_library_selects_highest [] (fun _ => none) (3, 0, 5)).2.2.1
    (by decide) (by decide)

/-! ## Side tables, user pointers and handle teardown
(glfw/__init__.py: lines 993-1039, 1185-1199, 736-749, 1462-1532)

Handles are modelled by their raw machine addresses (naturals).  The module
dictionaries are association lists keyed by the Python int that the ctypes
cast at each site produces. -/

/-- A Python value passed to a user-pointer setter: either a ctypes
`c_void_p` raw pointer (carrying its machine word) or an arbitrary other
Python object (identified by a numeric id). -/
inductive PyValue where
  | voidp : ℕ → PyValue
  | obj : ℕ → PyValue
  deriving DecidableEq, Repr

/-- A Python callable stored in a per-kind callback repository: either the
user's own callback function (identified by a numeric id), or — only in
`set_drop_callback` — the internal `cb_wrapper` closure (lines 2345-2348)
that decodes the native path array before forwarding to the user callback
it captures.  The closure is a distinct function object from the user
callback it wraps. -/
inductive CbValue where
  | user : ℕ → CbValue
  | drop_wrapper : ℕ → CbValue
  deriving DecidableEq, Repr

/-- The key cast used at every registration and lookup site
(`ctypes.cast(ctypes.pointer(window), ctypes.POINTER(ctypes.c_long)).contents.value`):
the handle's 8 address bytes read as a signed 64-bit integer. -/
def c_long_key (addr : ℕ) : ℤ :=
  if addr % 2 ^ 64 < 2 ^ 63 then ((addr % 2 ^ 64 : ℕ) : ℤ)
  else ((addr % 2 ^ 64 : ℕ) : ℤ) - 2 ^ 64

/-- The key cast used in `destroy_window` (line 1194) and nowhere else:
the same 8 bytes read through `ctypes.c_ulong`, i.e. unsigned. -/
def c_ulong_key (addr : ℕ) : ℤ :=
  ((addr % 2 ^ 64 : ℕ) : ℤ)

/-- Python dict lookup `d[k]`/`k in d` over an association list. -/
def dict_find {V : Type} (k : ℤ) : List (ℤ × V) → Option V
  | [] => none
  | (k2, v) :: rest => if k2 = k then some v else dict_find k rest

/-- Python dict store `d[k] = v`. -/
def dict_insert {V : Type} (k : ℤ) (v : V) : List (ℤ × V) → List (ℤ × V)
  | [] => [(k, v)]
  | (k2, v2) :: rest =>
      if k2 = k then (k, v) :: rest else (k2, v2) :: dict_insert k v rest

/-- Python dict delete `del d[k]` (guarded by `if k in d` at every call
site, so deleting an absent key is a no-op here). -/
def dict_erase {V : Type} (k : ℤ) : List (ℤ × V) → List (ℤ × V)
  | [] => []
  | (k2, v2) :: rest =>
      if k2 = k then dict_erase k rest else (k2, v2) :: dict_erase k rest

/-- The process state relevant to user pointers and side tables: the native
library's per-window and per-monitor user-pointer slots (keyed by raw
handle address; `0` is the NULL default) and the module-level dictionaries:
`_window_user_data_repository`, `_monitor_user_data_repository`, and the
per-kind callback dictionaries collected in `_callback_repositories`
(each stores the `cbfun` component of the `(cbfun, c_cbfun)` pair — the
user callback for every kind except file-drop, where it is the internal
`cb_wrapper` closure; `none` models the `0` stored for an explicit
`None`). -/
structure GLFWstate where
  native_window_user_pointer : ℕ → ℕ
  native_monitor_user_pointer : ℕ → ℕ
  window_user_data_repository : List (ℤ × (Bool × PyValue))
  monitor_user_data_repository : List (ℤ × (Bool × PyValue))
  callback_repositories : List (List (ℤ × Option CbValue))

/-- `set_window_user_pointer` (lines 1466-1485): record
`(is_wrapped, value)` in the side table under the `c_long` key, and call
`glfwSetWindowUserPointer` with either the raw `c_void_p` word or the
address of the freshly created `ctypes.py_object` box (`box_addr`). -/
def set_window_user_pointer (st : GLFWstate) (window : ℕ) (pointer : PyValue)
    (box_addr : ℕ) : GLFWstate :=
  let data : Bool × PyValue :=
    match pointer with
    | PyValue.voidp _ => (false, pointer)
    | PyValue.obj _ => (true, pointer)
  let native_word : ℕ :=
    match pointer with
    | PyValue.voidp p => p % 2 ^ 64
    | PyValue.obj _ => box_addr % 2 ^ 64
  { st with
    window_user_data_repository :=
      dict_insert (c_long_key window) data st.window_user_data_repository
    native_window_user_pointer :=
      fun a => if a = window then native_word else st.native_window_user_pointer a }

/-- `get_window_user_pointer` (lines 1489-1505): if the side table has a
wrapped-host-value entry under the `c_long` key, return the original Python
object; otherwise read the native slot via `glfwGetWindowUserPointer`. -/
def get_window_user_pointer (st : GLFWstate) (window : ℕ) : PyValue :=
  match dict_find (c_long_key window) st.window_user_data_repository with
  | some (true, value) => value
  | _ => PyValue.voidp (st.native_window_user_pointer window)

/-- `set_monitor_user_pointer` (lines 1000-1019).  The repository is keyed
by the monitor handle (`_monitor_user_data_repository[monitor]`, modelled
by the handle's address).  Modelled faithfully to the source, the final
native call is `_glfw.glfwSetWindowUserPointer(monitor, pointer)` — the
WINDOW slot setter — although the docstring says the function wraps
`glfwSetMonitorUserPointer`; the monitor's own native slot is never
written.  (Under real ctypes the mismatched call would raise an
ArgumentError, since `monitor` is not a `POINTER(_GLFWwindow)`; either way
`glfwSetMonitorUserPointer` does not run.) -/
def set_monitor_user_pointer (st : GLFWstate) (monitor : ℕ) (pointer : PyValue)
    (box_addr : ℕ) : GLFWstate :=
  let data : Bool × PyValue :=
    match pointer with
    | PyValue.voidp _ => (false, pointer)
    | PyValue.obj _ => (true, pointer)
  let native_word : ℕ :=
    match pointer with
    | PyValue.voidp p => p % 2 ^ 64
    | PyValue.obj _ => box_addr % 2 ^ 64
  { st with
    monitor_user_data_repository :=
      dict_insert ((monitor : ℤ)) data st.monitor_user_data_repository
    native_window_user_pointer :=
      fun a => if a = monitor then native_word else st.native_window_user_pointer a }

/-- `get_monitor_user_pointer` (lines 1026-1039): side table first (wrapped
entries only), else `glfwGetMonitorUserPointer` reads the monitor's native
slot. -/
def get_monitor_user_pointer (st : GLFWstate) (monitor : ℕ) : PyValue :=
  match dict_find ((monitor : ℤ)) st.monitor_user_data_repository with
  | some (true, value) => value
  | _ => PyValue.voidp (st.native_monitor_user_pointer monitor)

/-- `destroy_window` (lines 1185-1199): call `glfwDestroyWindow` (the
native library frees the window, so a native read of that address's slot
before any handle reuse yields the NULL default, modelled as resetting the
slot to 0), then delete the handle's key — computed through `c_ulong`,
unlike every registration site — from every callback repository and from
the window user-data repository. -/
def destroy_window (st : GLFWstate) (window : ℕ) : GLFWstate :=
  { st with
    native_window_user_pointer :=
      fun a => if a = window then 0 else st.native_window_user_pointer a
    callback_repositories :=
      st.callback_repositories.map (fun callback_repository =>
        dict_erase (c_ulong_key window) callback_repository)
    window_user_data_repository :=
      dict_erase (c_ulong_key window) st.window_user_data_repository }

theorem dict_find_erase_self {V : Type} (k : ℤ) (t : List (ℤ × V)) :
    dict_find k (dict_erase k t) = none := by
  induction t with
  | nil => rfl
  | cons p rest ih =>
    obtain ⟨k2, v2⟩ := p
    by_cases h : k2 = k
    · simp [dict_erase, h, ih]
    · simp [dict_erase, dict_find, h, ih]

/-- The empty initial state: NULL native slots, empty side tables. -/
def st0 : GLFWstate :=
  { native_window_user_pointer := fun _ => 0
    native_monitor_user_pointer := fun _ => 0
    window_user_data_repository := []
    monitor_user_data_repository := []
    callback_repositories := [] }

/-- Claim C7, evaluated at the failing input: storing the raw `c_void_p`
word `42` on monitor handle `5` writes the word through
`glfwSetWindowUserPointer` (the window slot), leaves the monitor's own
native user-pointer slot untouched, and a subsequent
`get_monitor_user_pointer` returns the NULL default `0`, not `42` — while
the window functions round-trip the same raw value correctly. -/
theorem c7_monitor_user_pointer_bug :
    get_monitor_user_pointer (set_monitor_user_pointer st0 5 (PyValue.voidp 42) 0) 5
      = PyValue.voidp 0
    ∧ get_monitor_user_pointer (set_monitor_user_pointer st0 5 (PyValue.voidp 42) 0) 5
      ≠ PyValue.voidp 42
    ∧ (set_monitor_user_pointer st0 5 (PyValue.voidp 42) 0).native_window_user_pointer 5
      = 42
    ∧ (set_monitor_user_pointer st0 5 (PyValue.voidp 42) 0).native_monitor_user_pointer 5
      = 0
    ∧ get_window_user_pointer (set_window_user_pointer st0 5 (PyValue.voidp 42) 0) 5
      = PyValue.voidp 42 := by
  refine ⟨rfl, by decide, rfl, rfl, by decide⟩

/-- When the two key casts agree (every address below `2^63`), destroying a
window removes its entries from the user-pointer table and every callback
table, and `get_window_user_pointer` then reports the native NULL
default. -/
theorem destroy_window_removes_entries_when_keys_agree (st : GLFWstate)
    (window : ℕ) (h : c_long_key window = c_ulong_key window) :
    dict_find (c_long_key window)
        (destroy_window st window).window_user_data_repository = none
    ∧ (∀ repo ∈ (destroy_window st window).callback_repositories,
        dict_find (c_long_key window) repo = none)
    ∧ get_window_user_pointer (destroy_window st window) window = PyValue.voidp 0 := by
  have hfind : dict_find (c_long_key window)
      (destroy_window st window).window_user_data_repository = none := by
    show dict_find (c_long_key window)
      (dict_erase (c_ulong_key window) st.window_user_data_repository) = none
    rw [h]
    exact dict_find_erase_self _ _
  refine ⟨hfind, ?_, ?_⟩
  · intro repo hrepo
    obtain ⟨r0, _, heq⟩ := List.mem_map.mp hrepo
    rw [← heq, h]
    exact dict_find_erase_self _ _
  · show (match dict_find (c_long_key window)
        (destroy_window st window).window_user_data_repository with
      | some (true, value) => value
      | _ => PyValue.voidp
          ((destroy_window st window).native_window_user_pointer window))
      = PyValue.voidp 0
    rw [hfind]
    show PyValue.voidp (if window = window then 0
        else st.native_window_user_pointer window) = PyValue.voidp 0
    rw [if_pos rfl]

/-- Claim C8, evaluated at the failing input: for a window whose raw
address is `2^63`, the side-table entry is stored under the signed
`c_long` key `2^63 - 2^64` while `destroy_window` deletes the unsigned
`c_ulong` key `2^63`; the entry therefore survives destruction and
`get_window_user_pointer` on the same raw identity returns the stale
wrapped host value, not the native slot default. -/
theorem c8_destroy_window_stale_entry :
    dict_find (c_long_key (2 ^ 63))
        (destroy_window
          (set_window_user_pointer st0 (2 ^ 63) (PyValue.obj 7) 100)
          (2 ^ 63)).window_user_data_repository
      = some (true, PyValue.obj 7)
    ∧ get_window_user_pointer
        (destroy_window
          (set_window_user_pointer st0 (2 ^ 63) (PyValue.obj 7) 100)
          (2 ^ 63)) (2 ^ 63)
      = PyValue.obj 7
    ∧ c_ulong_key (2 ^ 63) ≠ c_long_key (2 ^ 63) := by
  refine ⟨by decide, by decide, by decide⟩

end PyGLFW

